import Mathlib

/-!
Shallow embedding of the Task-to-Code Alignment Verification Engine
(`src/webapp/server/index.cjs`, handler for
`POST /mcp/tools/jira-github/verify-alignment`).

Strings are modelled as `List Char`; JavaScript `String.prototype.includes`
becomes `containsSub`, `toLowerCase` becomes `lower`, `split(/[\s,.'"()]+/)`
becomes `splitSeps`, and `Array.prototype.filter` with an `indexOf`-based
uniqueness test becomes `dedupFirst`.  JavaScript numbers are modelled as
exact integers / rationals.  Dates are epoch milliseconds (`Int`).
-/

set_option maxRecDepth 8000

namespace AlignmentEngine

/-- JS `toLowerCase` on the modelled character set. -/
def lower (s : List Char) : List Char := s.map Char.toLower

/-- JS `toUpperCase` on the modelled character set. -/
def upper (s : List Char) : List Char := s.map Char.toUpper

/-- Helper for substring search: does `hay` start with `needle`? -/
def listStartsWith : List Char → List Char → Bool
  | _, [] => true
  | [], _ :: _ => false
  | a :: as, b :: bs => a == b && listStartsWith as bs

/-- JS `hay.includes(needle)`: substring containment (empty needle matches). -/
def containsSub : List Char → List Char → Bool
  | [], needle => needle.isEmpty
  | c :: rest, needle => listStartsWith (c :: rest) needle || containsSub rest needle

/-- Separator class of the regex `[\s,.'"()]` used by the keyword extractor. -/
def isSep (c : Char) : Bool :=
  c == ' ' || c == '\t' || c == '\n' || c == '\r' || c == '\x0b' || c == '\x0c' ||
  c == ',' || c == '.' || c == '\'' || c == '\"' || c == '(' || c == ')'

/-- JS `s.split(/[\s,.'"()]+/)`: each maximal run of separators is one
delimiter; empty fields appear at the string's edges exactly as in JS. -/
def splitSeps : List Char → List (List Char)
  | [] => [[]]
  | c :: rest =>
    let r := splitSeps rest
    if isSep c then
      match rest with
      | c' :: _ => if isSep c' then r else [] :: r
      | [] => [] :: r
    else
      match r with
      | w :: ws => (c :: w) :: ws
      | [] => [[c]]

/-- JS `arr.filter((w, i, a) => a.indexOf(w) === i)`: keep the first
occurrence of each element, dropping later duplicates.  `seen` accumulates
the elements already kept. -/
def dedupFirstAux {α : Type} [BEq α] : List α → List α → List α
  | _, [] => []
  | seen, x :: xs =>
    if seen.contains x then dedupFirstAux seen xs
    else x :: dedupFirstAux (x :: seen) xs

/-- Duplicate removal preserving first-occurrence order. -/
def dedupFirst {α : Type} [BEq α] (l : List α) : List α := dedupFirstAux [] l

/-- The hard-coded stop-word list of the handler. -/
def stopWords : List (List Char) :=
  ["the".toList, "and".toList, "or".toList, "for".toList, "with".toList,
   "that".toList, "this".toList, "can".toList, "you".toList, "ask".toList,
   "way".toList, "called".toList, "on".toList, "in".toList, "to".toList,
   "a".toList, "an".toList]

/-- Keyword extraction from a task summary (`summaryWords` in the handler):
lowercase, split on the separator class, keep words of length at least 3
that are not stop-words, drop duplicates keeping the first occurrence,
truncate to 8. -/
def summaryWords (summary : List Char) : List (List Char) :=
  (dedupFirst (((splitSeps (lower summary)).filter
    (fun w => 3 ≤ w.length && !(stopWords.contains w))))).take 8

/-- JS `key.replace('-', '')`: remove the first hyphen only. -/
def removeFirstHyphen : List Char → List Char
  | [] => []
  | c :: rest => if c == '-' then rest else c :: removeFirstHyphen rest

/-- JS `key.replace('-', ' ')`: replace the first hyphen with a space. -/
def hyphenToSpace : List Char → List Char
  | [] => []
  | c :: rest => if c == '-' then ' ' :: rest else c :: hyphenToSpace rest

/-- Number of task keywords occurring as substrings of (already lowercased)
text — the `keywordMatches` count of the handler. -/
def keywordOverlap (kws : List (List Char)) (text : List Char) : Nat :=
  (kws.filter (fun k => containsSub text k)).length

/-- The three case-insensitive key forms checked by commit matching
(strategy 1): the key verbatim, with its first hyphen removed, and with its
first hyphen replaced by a space. -/
def keyVariantMatch (taskKey text : List Char) : Bool :=
  containsSub text (lower taskKey) ||
  containsSub text (lower (removeFirstHyphen taskKey)) ||
  containsSub text (lower (hyphenToSpace taskKey))

/-- The hard-coded list consulted by the ROC-5/ROC-6 special case of commit
matching (strategy 3). -/
def verificationKeywords : List (List Char) :=
  ["verify".toList, "commit".toList, "alignment".toList,
   "changelist".toList, "code".toList, "delivered".toList]

/-- Commit matching (the `commitMatches` filter predicate): key variants,
else 2+ keyword overlap, else — for keys containing "roc-5" or "roc-6" —
2+ hits from `verificationKeywords`. -/
def commitMatches (taskKey : List Char) (kws : List (List Char))
    (message : List Char) : Bool :=
  let msg := lower message
  keyVariantMatch taskKey msg ||
  decide (2 ≤ keywordOverlap kws msg) ||
  ((containsSub (lower taskKey) ("roc-5".toList) ||
    containsSub (lower taskKey) ("roc-6".toList)) &&
   decide (2 ≤ keywordOverlap verificationKeywords msg))

/-- Pull-request matching (the `prMatches` filter predicate): the verbatim
key in title or body, else 2+ keyword overlap against title and body joined
by a space. -/
def prMatches (taskKey : List Char) (kws : List (List Char))
    (title body : List Char) : Bool :=
  let t := lower title
  let b := lower body
  let combined := t ++ [' '] ++ b
  containsSub t (lower taskKey) || containsSub b (lower taskKey) ||
  decide (2 ≤ keywordOverlap kws combined)

/-- Branch matching (the `branchMatches` filter predicate): the verbatim key
or the key with its first hyphen removed; no keyword clause. -/
def branchMatches (taskKey : List Char) (name : List Char) : Bool :=
  let n := lower name
  containsSub n (lower taskKey) ||
  containsSub n (lower (removeFirstHyphen taskKey))

/-- Modelled from the spec (section 4.2), for comparison with the code:
the uniform matching policy the spec asserts is applied identically to
commit messages, PR title+body, and branch names — key verbatim, key with
hyphen removed, key with hyphen replaced by a space (all case-insensitive),
or at least 2 of the task's keywords as substrings. -/
def matchesSpecPolicy (taskKey : List Char) (kws : List (List Char))
    (text : List Char) : Bool :=
  let t := lower text
  keyVariantMatch taskKey t || decide (2 ≤ keywordOverlap kws t)

/-- A commit from `githubAuth.listCommits` (flattening `c.commit.message`,
`c.commit.author.date`, `c.html_url`); dates are epoch milliseconds. -/
structure Commit where
  sha : List Char
  message : List Char
  date : Int
  url : List Char
deriving DecidableEq

/-- A pull request from `githubAuth.listPullRequests`. -/
structure PullReq where
  number : Nat
  title : List Char
  body : List Char
  state : List Char
  url : List Char
deriving DecidableEq

/-- A branch from `githubAuth.listBranches`. -/
structure Branch where
  name : List Char
deriving DecidableEq

/-- A code-search hit from `githubAuth.searchCode` (flattening
`item.repository.name`). -/
structure CodeItem where
  path : List Char
  repositoryName : List Char
  url : List Char
deriving DecidableEq

/-- Displayed commit evidence entry (`sha.substring(0,7)`, first message
line, date, url). -/
structure EvCommit where
  sha : List Char
  message : List Char
  date : Int
  url : List Char
deriving BEq, DecidableEq

/-- Displayed pull-request evidence entry. -/
structure EvPr where
  number : Nat
  title : List Char
  state : List Char
  url : List Char
deriving BEq, DecidableEq

/-- Displayed code-match evidence entry. -/
structure EvCode where
  path : List Char
  repository : List Char
  url : List Char
deriving BEq, DecidableEq

/-- Per-task evidence object built by the handler. -/
structure Evidence where
  commits : List EvCommit
  prs : List EvPr
  branches : List (List Char)
  codeMatches : List EvCode

/-- JS `message.split('\n')[0]`. -/
def firstLine (s : List Char) : List Char := s.takeWhile (fun c => c != '\n')

/-- JS `filter((item, index, self) => index === self.findIndex(t => t.path
=== item.path))`: first-occurrence deduplication keyed on `path`. -/
def dedupByPathAux : List (List Char) → List EvCode → List EvCode
  | _, [] => []
  | seen, x :: xs =>
    if seen.contains x.path then dedupByPathAux seen xs
    else x :: dedupByPathAux (x.path :: seen) xs

/-- Path-keyed first-occurrence deduplication of code matches. -/
def dedupByPath (l : List EvCode) : List EvCode := dedupByPathAux [] l

/-- Evidence assembly for one task, given the shared pools and the items
already pushed by the per-task code search: matched commits and PRs are
display-capped with `slice(0, 5)`, matched branches are mapped to their
names with no cap, and code matches are deduplicated by path then capped. -/
def buildEvidence (taskKey : List Char) (kws : List (List Char))
    (allCommits : List Commit) (allPRs : List PullReq)
    (allBranches : List Branch) (codePushed : List EvCode) : Evidence :=
  let commitMs := allCommits.filter (fun c => commitMatches taskKey kws c.message)
  let prMs := allPRs.filter (fun p => prMatches taskKey kws p.title p.body)
  let branchMs := allBranches.filter (fun b => branchMatches taskKey b.name)
  { commits := (commitMs.take 5).map
      (fun c => ⟨c.sha.take 7, firstLine c.message, c.date, c.url⟩)
  , prs := (prMs.take 5).map (fun p => ⟨p.number, p.title, p.state, p.url⟩)
  , branches := branchMs.map Branch.name
  , codeMatches := (dedupByPath codePushed).take 5 }

/-- The `hasEvidence` predicate: some entry in any of the four categories. -/
def hasEvidence (ev : Evidence) : Bool :=
  decide (0 < ev.commits.length) || decide (0 < ev.prs.length) ||
  decide (0 < ev.branches.length) || decide (0 < ev.codeMatches.length)

/-- Status-category test for Done labels. -/
def isDoneStatus (statusLower : List Char) : Bool :=
  containsSub statusLower ("done".toList) ||
  containsSub statusLower ("closed".toList) ||
  containsSub statusLower ("resolved".toList)

/-- Status-category test for InProgress labels. -/
def isInProgressStatus (statusLower : List Char) : Bool :=
  containsSub statusLower ("progress".toList) ||
  containsSub statusLower ("in progress".toList) ||
  containsSub statusLower ("selected for development".toList)

/-- Status-category test for ToDo labels. -/
def isToDoStatus (statusLower : List Char) : Bool :=
  containsSub statusLower ("to do".toList) ||
  containsSub statusLower ("open".toList) ||
  containsSub statusLower ("backlog".toList)

/-- The completion-keyword list of rule 4. -/
def completionKeywords : List (List Char) :=
  ["fix".toList, "complete".toList, "done".toList, "finish".toList,
   "implement".toList, "resolve".toList, "feat:".toList, "add".toList,
   "intelligent".toList, "verification".toList]

/-- Milliseconds in 30 days; `daysAgo < 30` with `daysAgo = (now - date) /
86400000` is equivalent to `now - date < 30 * 86400000` over the rationals. -/
def thirtyDaysMs : Int := 2592000000

/-- Displayed commits from the last 30 days (the `recentCommits` filter of
rule 4). -/
def recentCommits (now : Int) (commits : List EvCommit) : List EvCommit :=
  commits.filter (fun c => decide (now - c.date < thirtyDaysMs))

/-- Rule 4's completion signal, as the code computes it: the displayed
commit list must be nonempty and contain a commit from the last 30 days,
and then either a recent displayed commit's message holds a completion
keyword or a displayed matched PR is in state "closed". -/
def completionSignal (now : Int) (ev : Evidence) : Bool :=
  if ev.commits.isEmpty then false
  else
    let recent := recentCommits now ev.commits
    if recent.isEmpty then false
    else
      (recent.any (fun c =>
        completionKeywords.any (fun k => containsSub (lower c.message) k))) ||
      (ev.prs.any (fun pr => pr.state == ("closed".toList)))

/-- Modelled from the spec (section 4.5), for comparison with the code:
the completion signal as the spec states it — some matched commit from the
last 30 days whose message holds a keyword from the eight-keyword set, or
some matched pull request in a closed state. -/
def completionSignalSpec (now : Int) (ev : Evidence) : Bool :=
  ((recentCommits now ev.commits).any (fun c =>
    (["fix".toList, "complete".toList, "done".toList, "finish".toList,
      "implement".toList, "resolve".toList, "feat:".toList,
      "add".toList]).any (fun k => containsSub (lower c.message) k))) ||
  (ev.prs.any (fun pr => pr.state == ("closed".toList)))

/-- Alignment verdict. -/
inductive Alignment where
  | aligned
  | misaligned
deriving BEq, DecidableEq

/-- Verdict with warning and recommendation, as built per task. -/
structure Verdict where
  alignment : Alignment
  warning : Option (List Char)
  recommendation : Option (List Char)
deriving BEq, DecidableEq

/-- Warning of rule 1. -/
def doneNoEvidenceWarning (taskStatus : List Char) : List Char :=
  ("Task marked as ".toList) ++ taskStatus ++ (" but no code evidence found".toList)

/-- Warning of rule 3. -/
def inProgressNoEvidenceWarning (taskStatus : List Char) : List Char :=
  ("Task marked as ".toList) ++ taskStatus ++
  (" but no code evidence found (no commits, branches, or PRs)".toList)

/-- Warning of rule 4's misaligned case. -/
def staleInProgressWarning (hasMergedPRs : Bool) : List Char :=
  ("Task IN PROGRESS but code appears complete (commits with completion keywords found".toList) ++
  (if hasMergedPRs then ", PRs merged".toList else []) ++ (")".toList)

/-- The rule cascade of the handler: verdict, warning, and recommendation
from the task's status label and its evidence, with the verdict initialized
to aligned. -/
def computeAlignment (now : Int) (taskStatus : List Char) (ev : Evidence) :
    Verdict :=
  let statusLower := lower taskStatus
  let isDone := isDoneStatus statusLower
  let isInProgress := isInProgressStatus statusLower
  let isToDo := isToDoStatus statusLower
  let hasEv := hasEvidence ev
  if isDone && !hasEv then
    ⟨.misaligned, some (doneNoEvidenceWarning taskStatus),
     some ("Verify task status or search for alternative task keys/descriptions".toList)⟩
  else if isDone && hasEv then ⟨.aligned, none, none⟩
  else if isInProgress && !hasEv then
    ⟨.misaligned, some (inProgressNoEvidenceWarning taskStatus),
     some ("Task may not have been started yet, or evidence is in a different repository".toList)⟩
  else if isInProgress && hasEv then
    if !ev.commits.isEmpty then
      let recent := recentCommits now ev.commits
      if !recent.isEmpty then
        let hasCompletionKeywords := recent.any (fun c =>
          completionKeywords.any (fun k => containsSub (lower c.message) k))
        let hasMergedPRs := ev.prs.any (fun pr => pr.state == ("closed".toList))
        if hasCompletionKeywords || hasMergedPRs then
          ⟨.misaligned, some (staleInProgressWarning hasMergedPRs),
           some ("Update Jira status to DONE".toList)⟩
        else ⟨.aligned, none, none⟩
      else ⟨.aligned, none, none⟩
    else ⟨.aligned, none, none⟩
  else if isToDo && hasEv then
    ⟨.misaligned, some ("Task TO DO but code already exists".toList),
     some ("Update Jira status to IN PROGRESS or DONE".toList)⟩
  else if isToDo && !hasEv then ⟨.aligned, none, none⟩
  else ⟨.aligned, none, none⟩

/-- Outcome of one external fetch: a 2xx response with parsed payload, a
non-2xx response, or a rejected promise (network error / thrown
exception). -/
inductive Outcome (α : Type) where
  | ok (val : α)
  | httpErr
  | thrown

/-- Whether an outcome is a rejected promise. -/
def Outcome.isThrown {α : Type} : Outcome α → Bool
  | .thrown => true
  | _ => false

/-- Per-task code search: try the terms in order (each query wrapped in its
own try/catch, so failures fall through to the next term), push at most 3
items from the first term that yields results, then stop. -/
def collectCode (search : List Char → Outcome (List CodeItem)) :
    List (List Char) → List EvCode
  | [] => []
  | t :: rest =>
    match search t with
    | .ok items =>
      if items.isEmpty then collectCode search rest
      else (items.take 3).map (fun i => ⟨i.path, i.repositoryName, i.url⟩)
    | _ => collectCode search rest

/-- A Jira task as pushed into `jiraTasks` (key, summary, status name,
assignee display name). -/
structure JiraTask where
  key : List Char
  summary : List Char
  statusName : List Char
  assignee : Option (List Char)

/-- Per-task analysis result, as pushed into `aligned` /
`misalignments`. -/
structure TaskResult where
  key : List Char
  summary : List Char
  status : List Char
  assignee : List Char
  evidenceCommits : Nat
  evidencePrs : Nat
  evidenceBranches : Nat
  evidenceCodeMatches : Nat
  evidenceTotal : Nat
  evidenceDetails : Evidence
  alignment : Alignment
  warning : Option (List Char)
  recommendation : Option (List Char)

/-- The search terms tried for one task: the task key then the first two
keywords, truthy entries only, limited to 2 terms. -/
def searchTerms (t : JiraTask) (kws : List (List Char)) : List (List Char) :=
  (((t.key :: kws.take 2)).filter (fun s => !s.isEmpty)).take 2

/-- Analysis of one task: extract keywords, gather evidence from the shared
pools and the per-task code search, classify. -/
def analyzeTask (now : Int) (allCommits : List Commit) (allPRs : List PullReq)
    (allBranches : List Branch) (search : List Char → Outcome (List CodeItem))
    (t : JiraTask) : TaskResult :=
  let kws := summaryWords t.summary
  let codePushed := collectCode search (searchTerms t kws)
  let ev := buildEvidence t.key kws allCommits allPRs allBranches codePushed
  let v := computeAlignment now t.statusName ev
  { key := t.key
  , summary := t.summary
  , status := t.statusName
  , assignee := t.assignee.getD ("Unassigned".toList)
  , evidenceCommits := ev.commits.length
  , evidencePrs := ev.prs.length
  , evidenceBranches := ev.branches.length
  , evidenceCodeMatches := ev.codeMatches.length
  , evidenceTotal := ev.commits.length + ev.prs.length + ev.branches.length +
      ev.codeMatches.length
  , evidenceDetails := ev
  , alignment := v.alignment
  , warning := v.warning
  , recommendation := v.recommendation }

/-- The analysis loop: every task result is appended to `aligned` or to
`misalignments`, preserving order. -/
def analyzeAll (now : Int) (allCommits : List Commit) (allPRs : List PullReq)
    (allBranches : List Branch) (search : List Char → Outcome (List CodeItem))
    (tasks : List JiraTask) : List TaskResult × List TaskResult :=
  tasks.foldl
    (fun acc t =>
      let r := analyzeTask now allCommits allPRs allBranches search t
      if r.alignment == .aligned then (acc.1 ++ [r], acc.2)
      else (acc.1, acc.2 ++ [r]))
    ([], [])

/-- The score line `Math.round((alignedCount / totalTasks) * 100)` with the
guard `totalTasks > 0 ? _ : 0`; over exact rationals, rounding half up,
this is the integer `(200 * aligned + total) / (2 * total)`. -/
def alignmentScore (alignedCount totalTasks : Nat) : Nat :=
  if 0 < totalTasks then (200 * alignedCount + totalTasks) / (2 * totalTasks)
  else 0

/-- The verification report, keeping the response fields the claims are
about.  `alignmentScore = none` models a JSON response that omits the
`alignmentScore` key. -/
structure Report where
  repository : List Char
  project : List Char
  tasksAnalyzed : Nat
  alignmentScore : Option Nat
  aligned : List TaskResult
  misalignments : List TaskResult
  summary : List Char

/-- Summary prefix of the empty report. -/
def noTasksMsg : List Char := "No Jira tasks found matching the criteria.".toList

/-- Report assembly: the zero-task early return (which carries no
`alignmentScore` field), or the analysis loop followed by scoring and the
summary line.  `resolvedSuffix` is the optional resolution note appended to
both summaries. -/
def mkReport (now : Int) (repo project : List Char)
    (allCommits : List Commit) (allPRs : List PullReq)
    (allBranches : List Branch) (search : List Char → Outcome (List CodeItem))
    (resolvedSuffix : List Char) (tasks : List JiraTask) : Report :=
  if tasks.isEmpty then
    { repository := repo
    , project := project
    , tasksAnalyzed := 0
    , alignmentScore := none
    , aligned := []
    , misalignments := []
    , summary := noTasksMsg ++ resolvedSuffix }
  else
    let parts := analyzeAll now allCommits allPRs allBranches search tasks
    let totalTasks := tasks.length
    let score := alignmentScore parts.1.length totalTasks
    { repository := repo
    , project := project
    , tasksAnalyzed := totalTasks
    , alignmentScore := some score
    , aligned := parts.1
    , misalignments := parts.2
    , summary := (Nat.repr parts.1.length).toList ++ ("/".toList) ++
        (Nat.repr totalTasks).toList ++ (" tasks aligned (".toList) ++
        (Nat.repr score).toList ++ ("%). ".toList) ++
        (Nat.repr parts.2.length).toList ++
        (" misalignment(s) found.".toList) ++ resolvedSuffix }

/-- A Jira board: its full upstream issue list, plus the outcome of the
page fetch at each `startAt` offset (the issue payload itself, when the
fetch succeeds, is `issues.drop startAt |>.take 50`). -/
structure Board where
  issues : List JiraTask
  page : Nat → Outcome Unit

/-- The board page size used by the handler. -/
def pageSize : Nat := 50

/-- The per-issue loop of one page: apply the status filter (case-
insensitive substring match, only when a filter is given), push the issue,
and break once `maxTasks` is reached. -/
def pushIssues (statuses : List (List Char)) (maxTasks : Nat)
    (acc : List JiraTask) : List JiraTask → List JiraTask
  | [] => acc
  | i :: rest =>
    if !statuses.isEmpty &&
        !(statuses.any (fun s =>
          containsSub (lower i.statusName) (lower s))) then
      pushIssues statuses maxTasks acc rest
    else
      let acc2 := acc ++ [i]
      if maxTasks ≤ acc2.length then acc2
      else pushIssues statuses maxTasks acc2 rest

/-- Result of paginating one board: accumulated tasks, number of page
fetches issued, and whether a page fetch threw (propagating to the
enclosing try/catch with the tasks pushed so far retained). -/
structure PageRun where
  tasks : List JiraTask
  calls : Nat
  thrown : Bool

/-- The `while (hasMore && jiraTasks.length < maxTasks)` pagination over one
board: fetch the page at `startAt`; a non-2xx response stops the loop, a
rejected fetch aborts with the thrown flag, an empty page stops, and
otherwise the page's issues are filtered and pushed and the loop continues
at `startAt + 50` while the page was full and `maxTasks` is not reached. -/
def paginateFrom (b : Board) (statuses : List (List Char)) (maxTasks : Nat)
    (startAt : Nat) (acc : List JiraTask) : PageRun :=
  if maxTasks ≤ acc.length then ⟨acc, 0, false⟩
  else
    match b.page startAt with
    | .thrown => ⟨acc, 1, true⟩
    | .httpErr => ⟨acc, 1, false⟩
    | .ok _ =>
      let issues := (b.issues.drop startAt).take pageSize
      if h : issues.isEmpty then ⟨acc, 1, false⟩
      else
        let acc2 := pushIssues statuses maxTasks acc issues
        if issues.length == pageSize && acc2.length < maxTasks then
          let rec' := paginateFrom b statuses maxTasks (startAt + pageSize) acc2
          ⟨rec'.tasks, rec'.calls + 1, rec'.thrown⟩
        else ⟨acc2, 1, false⟩
termination_by b.issues.length - startAt
decreasing_by
  have hlt : startAt < b.issues.length := by
    by_contra hge
    apply h
    simp only [issues, List.isEmpty_iff, List.take_eq_nil_iff,
      List.drop_eq_nil_iff]
    omega
  simp only [pageSize]
  omega

/-- The `for (const board of boards)` loop: paginate each board from offset
0, abort on a thrown page fetch, and break once `maxTasks` is reached. -/
def boardsLoop (boards : List Board) (statuses : List (List Char))
    (maxTasks : Nat) (acc : List JiraTask) : List JiraTask × Bool :=
  match boards with
  | [] => (acc, false)
  | b :: rest =>
    let r := paginateFrom b statuses maxTasks 0 acc
    if r.thrown then (r.tasks, true)
    else if maxTasks ≤ r.tasks.length then (r.tasks, false)
    else boardsLoop rest statuses maxTasks r.tasks

/-- The search-API fallback: a failed or thrown request leaves the task
list empty. -/
def runFallback : Outcome (List JiraTask) → List JiraTask
  | .ok issues => issues
  | _ => []

/-- Single-project task fetch (the try-guarded board section): a thrown
boards fetch is caught with nothing accumulated and, because the throw
skips the rest of the try block, without the fallback; a non-2xx boards
response skips the boards and reaches the fallback with zero tasks; and
otherwise the boards are paginated, a thrown page fetch keeps the partial
list and skips the fallback, and the fallback runs only on zero tasks. -/
def fetchTasksSingle (boardsFetch : Outcome (List Board))
    (fallback : Outcome (List JiraTask)) (statuses : List (List Char))
    (maxTasks : Nat) : List JiraTask :=
  match boardsFetch with
  | .thrown => []
  | .httpErr => runFallback fallback
  | .ok boards =>
    let r := boardsLoop boards statuses maxTasks []
    if r.2 then r.1
    else if r.1.isEmpty then runFallback fallback else r.1

/-- A Jira project as listed by `/rest/api/3/project/search`, carrying the
outcome of its own boards fetch for all-projects mode. -/
structure Project where
  key : List Char
  name : List Char
  boardsFetch : Outcome (List Board)

/-- All-projects task fetch: each project's boards fetch and pagination run
inside a per-project try/catch (so any failure there just moves on to the
next project, keeping what was accumulated), and the loop breaks once
`maxTasks` is reached.  No fallback search runs in this mode. -/
def fetchTasksAll (projects : List Project) (statuses : List (List Char))
    (maxTasks : Nat) (acc : List JiraTask) : List JiraTask :=
  match projects with
  | [] => acc
  | p :: rest =>
    let acc2 :=
      match p.boardsFetch with
      | .ok boards => (boardsLoop boards statuses maxTasks acc).1
      | _ => acc
    if maxTasks ≤ acc2.length then acc2
    else fetchTasksAll rest statuses maxTasks acc2

/-- Drop one leading hyphen, for the optional `-?` of the normalization
regex. -/
def dropLeadingHyphen (l : List Char) : List Char :=
  match l with
  | c :: rest => if c == '-' then rest else l
  | [] => []

/-- Project-hint normalization:
`project.toUpperCase().replace(/^(PROJECT|SPACE)-?/i, '')`. -/
def normalizeHint (hint : List Char) : List Char :=
  let u := upper hint
  if listStartsWith u ("PROJECT".toList) then dropLeadingHyphen (u.drop 7)
  else if listStartsWith u ("SPACE".toList) then dropLeadingHyphen (u.drop 5)
  else u

/-- Project resolution against the fetched project list: exact key match
first, then exact or substring name match, else the hint itself is used as
a literal project key. -/
def resolveKey (projects : List Project) (projectN : List Char) : List Char :=
  match projects.find? (fun p => upper p.key == upper projectN) with
  | some p => p.key
  | none =>
    match projects.find? (fun p =>
        upper p.name == upper projectN ||
        containsSub (upper p.name) (upper projectN)) with
    | some p => p.key
    | none => projectN

/-- The optional resolution note appended to report summaries. -/
def resolutionSuffix (projectN actualKey : List Char) : List Char :=
  if !actualKey.isEmpty && actualKey != projectN then
    (" (Resolved \"".toList) ++ projectN ++ ("\" to \"".toList) ++
      actualKey ++ ("\")".toList)
  else []

/-- Recovery of the three GitHub pool fetches, each wrapped in its own
try/catch in the handler: any failure becomes an empty pool. -/
def pools {α : Type} : Outcome (List α) → List α
  | .ok l => l
  | _ => []

/-- One verification request's external environment: guard outcomes,
request parameters, and the outcome of every upstream fetch the handler can
issue. -/
structure World where
  repoGiven : Bool
  repo : List Char
  jiraConfigured : Bool
  githubAuthed : Bool
  billingAllowed : Bool
  projectHint : Option (List Char)
  statuses : List (List Char)
  maxTasks : Nat
  projectListFetch : Outcome (List Project)
  boardsOf : List Char → Outcome (List Board)
  fallbackFetch : Outcome (List JiraTask)
  commitsFetch : Outcome (List Commit)
  prsFetch : Outcome (List PullReq)
  branchesFetch : Outcome (List Branch)
  codeSearchOf : List Char → Outcome (List CodeItem)
  now : Int

/-- The verify-alignment handler: guards, project resolution (whose fetch
is not try-guarded, so a rejected promise falls to the outer catch and
becomes a 500), task fetch, and report assembly.  The error value is the
HTTP status code of the JSON error response. -/
def handler (w : World) : Except Nat Report :=
  if !w.repoGiven then .error 400
  else if !w.jiraConfigured then .error 400
  else if !w.githubAuthed then .error 401
  else if !w.billingAllowed then .error 403
  else
    let projectN :=
      match w.projectHint with
      | some h => normalizeHint h
      | none => []
    let mk := fun (projectLabel suffix : List Char) (tasks : List JiraTask) =>
      mkReport w.now w.repo projectLabel (pools w.commitsFetch)
        (pools w.prsFetch) (pools w.branchesFetch) w.codeSearchOf suffix tasks
    if projectN.isEmpty then
      match w.projectListFetch with
      | .thrown => .error 500
      | .httpErr => .ok (mk ("all".toList) [] [])
      | .ok projects =>
        .ok (mk ("all".toList) []
          (fetchTasksAll projects w.statuses w.maxTasks []))
    else
      match w.projectListFetch with
      | .thrown => .error 500
      | .httpErr =>
        .ok (mk projectN (resolutionSuffix projectN projectN)
          (fetchTasksSingle (w.boardsOf projectN) w.fallbackFetch
            w.statuses w.maxTasks))
      | .ok projects =>
        let actualKey := resolveKey projects projectN
        .ok (mk actualKey (resolutionSuffix projectN actualKey)
          (fetchTasksSingle (w.boardsOf actualKey) w.fallbackFetch
            w.statuses w.maxTasks))

/-! Helper lemmas. -/

theorem dedupFirstAux_subset {α : Type} [BEq α] :
    ∀ (seen l : List α) (x : α), x ∈ dedupFirstAux seen l → x ∈ l := by
  intro seen l
  induction l generalizing seen with
  | nil => intro x hx; simp [dedupFirstAux] at hx
  | cons y ys ih =>
    intro x hx
    simp only [dedupFirstAux] at hx
    split at hx
    · exact List.mem_cons_of_mem _ (ih seen x hx)
    · rcases List.mem_cons.mp hx with h | h
      · exact h ▸ List.mem_cons_self _ _
      · exact List.mem_cons_of_mem _ (ih _ x h)

theorem dedupFirstAux_nodup {α : Type} [BEq α] [LawfulBEq α] :
    ∀ (seen l : List α),
      (dedupFirstAux seen l).Nodup ∧ ∀ x ∈ dedupFirstAux seen l, x ∉ seen := by
  intro seen l
  induction l generalizing seen with
  | nil => simp [dedupFirstAux]
  | cons y ys ih =>
    simp only [dedupFirstAux]
    split
    · rename_i hc
      exact ih seen
    · rename_i hc
      obtain ⟨hnodup, hmem⟩ := ih (y :: seen)
      refine ⟨List.nodup_cons.mpr ⟨fun hy => ?_, hnodup⟩, ?_⟩
      · exact hmem y hy (List.mem_cons_self _ _)
      · intro x hx
        rcases List.mem_cons.mp hx with h | h
        · subst h
          intro hxs
          exact hc (List.elem_eq_true_of_mem hxs)
        · intro hxs
          exact hmem x h (List.mem_cons_of_mem _ hxs)

theorem dedupFirst_nodup {α : Type} [BEq α] [LawfulBEq α] (l : List α) :
    (dedupFirst l).Nodup :=
  (dedupFirstAux_nodup [] l).1

theorem toLower_of_isSep {c : Char} (h : isSep c = true) : Char.toLower c = c := by
  have hmem : c ∈ [' ', '\t', '\n', '\r', '\x0b', '\x0c', ',', '.', '\'',
      '\"', '(', ')'] := by
    simp only [isSep, Bool.or_eq_true, beq_iff_eq] at h
    simp only [List.mem_cons, List.not_mem_nil, or_false]
    tauto
  fin_cases hmem <;> decide

theorem splitSeps_all_sep :
    ∀ (s : List Char), (∀ c ∈ s, isSep c = true) →
      ∀ w ∈ splitSeps s, w = [] := by
  intro s
  induction s with
  | nil => intro _ w hw; simp [splitSeps] at hw; exact hw
  | cons c rest ih =>
    intro hall w hw
    have hc : isSep c = true := hall c (List.mem_cons_self _ _)
    have hrest : ∀ x ∈ rest, isSep x = true :=
      fun x hx => hall x (List.mem_cons_of_mem _ hx)
    simp only [splitSeps, hc, if_true] at hw
    cases rest with
    | nil =>
      simp only [splitSeps, List.mem_cons, List.not_mem_nil, or_false] at hw
      rcases hw with h | h
      · exact h
      · exact h
    | cons c' rest' =>
      have hc' : isSep c' = true := hrest c' (List.mem_cons_self _ _)
      simp only [hc', if_true] at hw
      exact ih hrest w hw

/-- Membership in the extractor output implies membership in the filtered
token list. -/
theorem summaryWords_mem {s : List Char} {w : List Char}
    (hw : w ∈ summaryWords s) :
    w ∈ (splitSeps (lower s)).filter
      (fun w => 3 ≤ w.length && !(stopWords.contains w)) := by
  have h1 : w ∈ dedupFirst ((splitSeps (lower s)).filter
      (fun w => 3 ≤ w.length && !(stopWords.contains w))) :=
    List.mem_of_mem_take hw
  exact dedupFirstAux_subset [] _ w h1

/-- C7: `extractKeywords` (the handler's `summaryWords`) is a pure function
of the summary whose output has at most 8 tokens, contains no token shorter
than 3 characters and no stop-word, contains no duplicates, and is empty
for an empty or all-punctuation summary. -/
theorem summaryWords_wellformed (s : List Char) :
    (summaryWords s).length ≤ 8 ∧
    (∀ w ∈ summaryWords s, 3 ≤ w.length ∧ stopWords.contains w = false) ∧
    (summaryWords s).Nodup ∧
    ((∀ c ∈ s, isSep c = true) → summaryWords s = []) := by
  refine ⟨List.length_take_le _ _, ?_, ?_, ?_⟩
  · intro w hw
    have := summaryWords_mem hw
    have hp := List.of_mem_filter this
    simp only [Bool.and_eq_true, decide_eq_true_eq, Bool.not_eq_true',
      decide_eq_true_iff] at hp
    exact ⟨hp.1, hp.2⟩
  · exact (dedupFirst_nodup _).sublist (List.take_sublist _ _)
  · intro hall
    have hlower : ∀ c ∈ lower s, isSep c = true := by
      intro c hc
      simp only [lower, List.mem_map] at hc
      obtain ⟨c0, hc0, rfl⟩ := hc
      rw [toLower_of_isSep (hall c0 hc0)]
      exact hall c0 hc0
    have hempty : (splitSeps (lower s)).filter
        (fun w => 3 ≤ w.length && !(stopWords.contains w)) = [] := by
      rw [List.filter_eq_nil_iff]
      intro w hw
      have := splitSeps_all_sep (lower s) hlower w hw
      subst this
      decide
    show (dedupFirst ((splitSeps (lower s)).filter
      (fun w => 3 ≤ w.length && !(stopWords.contains w)))).take 8 = []
    rw [hempty]
    rfl

/-- Witness for C7: a punctuation-only summary yields the empty keyword
sequence. -/
theorem summaryWords_wellformed_witness :
    summaryWords (" .,() ".toList) = [] :=
  (summaryWords_wellformed (" .,() ".toList)).2.2.2 (by decide)

/-- C1: a Done-category task without evidence is Misaligned, with the
"marked done but no code evidence found" warning, and a Done-category task
with evidence is Aligned. -/
theorem done_rules (now : Int) (taskStatus : List Char) (ev : Evidence)
    (hDone : isDoneStatus (lower taskStatus) = true) :
    (hasEvidence ev = false →
      (computeAlignment now taskStatus ev).alignment = .misaligned ∧
      (computeAlignment now taskStatus ev).warning =
        some (doneNoEvidenceWarning taskStatus)) ∧
    (hasEvidence ev = true →
      (computeAlignment now taskStatus ev).alignment = .aligned) := by
  unfold computeAlignment
  constructor <;> intro hEv <;> simp [hDone, hEv]

/-- Witness for C1 at a concrete Done task with no evidence. -/
theorem done_rules_witness :
    (computeAlignment 0 ("Done".toList) ⟨[], [], [], []⟩).alignment =
      .misaligned ∧
    (computeAlignment 0 ("Done".toList) ⟨[], [], [], []⟩).warning =
      some (doneNoEvidenceWarning ("Done".toList)) :=
  (done_rules 0 ("Done".toList) ⟨[], [], [], []⟩ (by decide)).1 (by decide)

/-- C2 counterexample: an InProgress task with one recent matched commit
whose message is "intelligent" — which holds none of the eight claimed
completion keywords and no closed PR exists — is nevertheless classified
Misaligned, because the code's keyword list also holds "intelligent" and
"verification". -/
theorem rule4_keyword_counterexample :
    isInProgressStatus (lower ("In Progress".toList)) = true ∧
    isDoneStatus (lower ("In Progress".toList)) = false ∧
    hasEvidence ⟨[⟨"abcdefg".toList, "intelligent".toList, 0, []⟩],
      [], [], []⟩ = true ∧
    completionSignalSpec 0 ⟨[⟨"abcdefg".toList, "intelligent".toList, 0, []⟩],
      [], [], []⟩ = false ∧
    (computeAlignment 0 ("In Progress".toList)
      ⟨[⟨"abcdefg".toList, "intelligent".toList, 0, []⟩], [], [], []⟩).alignment
      = .misaligned := by
  decide

/-- C2 (amended): for an InProgress task with evidence, the verdict is
Misaligned exactly when the code's completion signal fires — the displayed
commit list holds a commit from the last 30 days and either such a recent
commit's message holds one of the TEN keywords (the claimed eight plus
"intelligent" and "verification") or a displayed matched PR is closed —
and then the recommendation is to move the task to Done. -/
theorem rule4_completion (now : Int) (taskStatus : List Char) (ev : Evidence)
    (hDone : isDoneStatus (lower taskStatus) = false)
    (hProg : isInProgressStatus (lower taskStatus) = true)
    (hEv : hasEvidence ev = true) :
    ((computeAlignment now taskStatus ev).alignment = .misaligned ↔
      completionSignal now ev = true) ∧
    (completionSignal now ev = true →
      (computeAlignment now taskStatus ev).recommendation =
        some ("Update Jira status to DONE".toList)) := by
  simp only [computeAlignment, completionSignal]
  cases hc : ev.commits.isEmpty <;>
    cases hr : (recentCommits now ev.commits).isEmpty <;>
      cases hAB : ((recentCommits now ev.commits).any (fun c =>
          completionKeywords.any (fun k => containsSub (lower c.message) k)) ||
          ev.prs.any (fun pr => pr.state == ("closed".toList))) <;>
        simp [hDone, hProg, hEv, hc, hr, hAB]

/-- Witness for C2's amended theorem: a recent commit whose message holds
"fix" makes an InProgress task Misaligned. -/
theorem rule4_completion_witness :
    (computeAlignment 0 ("In Progress".toList)
      ⟨[⟨"abcdefg".toList, "fix login".toList, 0, []⟩], [], [], []⟩).alignment
      = .misaligned :=
  (rule4_completion 0 ("In Progress".toList)
    ⟨[⟨"abcdefg".toList, "fix login".toList, 0, []⟩], [], [], []⟩
    (by decide) (by decide) (by decide)).1.mpr (by decide)

/-- C10: for a task key containing "roc-5" or "roc-6" (case-insensitive),
any commit message holding at least 2 of the hard-coded verification words
matches, regardless of key or keyword overlap; for any other key the
special clause never fires, and commit matching is exactly key-variant or
2-keyword overlap. -/
theorem roc_special_case (taskKey message : List Char) (kws : List (List Char)) :
    ((containsSub (lower taskKey) ("roc-5".toList) = true ∨
      containsSub (lower taskKey) ("roc-6".toList) = true) →
      2 ≤ keywordOverlap verificationKeywords (lower message) →
      commitMatches taskKey kws message = true) ∧
    (containsSub (lower taskKey) ("roc-5".toList) = false →
      containsSub (lower taskKey) ("roc-6".toList) = false →
      commitMatches taskKey kws message =
        (keyVariantMatch taskKey (lower message) ||
         decide (2 ≤ keywordOverlap kws (lower message)))) := by
  constructor
  · intro h5 hcount
    unfold commitMatches
    rcases h5 with h | h <;> simp [h, hcount] <;> tauto
  · intro h5 h6
    unfold commitMatches
    simp only [h5, h6, Bool.or_self, Bool.false_and, Bool.or_false]

/-- Witness for C10: key "ROC-5" with message "verify code" matches via the
special clause alone. -/
theorem roc_special_case_witness :
    commitMatches ("ROC-5".toList) [] ("verify code".toList) = true :=
  (roc_special_case ("ROC-5".toList) ("verify code".toList) []).1
    (Or.inl (by decide)) (by decide)

/-- C6 counterexample: the text "roc 5 fix" satisfies the claimed uniform
policy for task key "ROC-5" (hyphen replaced by a space), yet branch
matching rejects it — the policy is not applied identically to branch
names. -/
theorem matcher_uniformity_counterexample :
    matchesSpecPolicy ("ROC-5".toList) [] ("roc 5 fix".toList) = true ∧
    branchMatches ("ROC-5".toList) ("roc 5 fix".toList) = false := by
  decide

/-- C6 (amended): the three channels share the verbatim-key clause but are
not identical: every branch match is also a commit match, any text holding
the lowercased key verbatim matches in all three channels, and when the
claimed uniform policy accepts a text that branch matching rejects, the
divergence is due to the hyphen-to-space key form or the keyword-overlap
clause, which branch matching lacks. -/
theorem matcher_per_channel (taskKey text : List Char)
    (kws : List (List Char)) :
    (branchMatches taskKey text = true →
      commitMatches taskKey kws text = true) ∧
    (containsSub (lower text) (lower taskKey) = true →
      branchMatches taskKey text = true ∧
      commitMatches taskKey kws text = true ∧
      prMatches taskKey kws text [] = true) ∧
    (matchesSpecPolicy taskKey kws text = true →
      branchMatches taskKey text = false →
      containsSub (lower text) (lower (hyphenToSpace taskKey)) = true ∨
      2 ≤ keywordOverlap kws (lower text)) := by
  refine ⟨?_, ?_, ?_⟩
  · intro hb
    simp only [branchMatches, Bool.or_eq_true] at hb
    simp only [commitMatches, keyVariantMatch, Bool.or_eq_true]
    tauto
  · intro hk
    refine ⟨?_, ?_, ?_⟩
    · simp only [branchMatches, Bool.or_eq_true]
      exact Or.inl hk
    · simp only [commitMatches, keyVariantMatch, Bool.or_eq_true]
      tauto
    · simp only [prMatches, Bool.or_eq_true]
      exact Or.inl (Or.inl hk)
  · intro hs hb
    simp only [matchesSpecPolicy, keyVariantMatch, Bool.or_eq_true,
      decide_eq_true_eq] at hs
    simp only [branchMatches, Bool.or_eq_true, not_or] at hb
    have hb' := Bool.or_eq_false_iff.mp hb
    rcases hs with (((h | h) | h) | h)
    · rw [hb'.1] at h
      exact absurd h (by simp)
    · rw [hb'.2] at h
      exact absurd h (by simp)
    · exact Or.inl h
    · exact Or.inr h

/-- Witness for C6's amended theorem: a text holding the key verbatim
matches in all three channels. -/
theorem matcher_per_channel_witness :
    branchMatches ("ROC-5".toList) ("see roc-5 here".toList) = true ∧
    commitMatches ("ROC-5".toList) [] ("see roc-5 here".toList) = true ∧
    prMatches ("ROC-5".toList) [] ("see roc-5 here".toList) [] = true :=
  (matcher_per_channel ("ROC-5".toList) ("see roc-5 here".toList) []).2.1
    (by decide)

theorem dedupByPath_eq_nil_iff (l : List EvCode) :
    dedupByPath l = [] ↔ l = [] := by
  cases l with
  | nil => simp [dedupByPath, dedupByPathAux]
  | cons x xs => simp [dedupByPath, dedupByPathAux]

theorem take_eq_nil_iff_of_pos {α : Type} {l : List α} {n : Nat}
    (hn : 0 < n) : l.take n = [] ↔ l = [] := by
  cases l with
  | nil => simp
  | cons x xs =>
    cases n with
    | zero => omega
    | succ m => simp

/-- C5 counterexample: six branches matching task key "ROC-5" all appear in
the evidence — the branch sub-sequence is not capped at the display limit
of 5. -/
theorem evidence_branch_cap_counterexample :
    ((buildEvidence ("ROC-5".toList) [] [] [] [⟨"roc-5-a".toList⟩,
      ⟨"roc-5-b".toList⟩, ⟨"roc-5-c".toList⟩, ⟨"roc-5-d".toList⟩,
      ⟨"roc-5-e".toList⟩, ⟨"roc-5-f".toList⟩] []).branches).length = 6 := by
  decide

/-- C5 (amended): commit, PR, and code-match evidence are capped at 5
entries, but the branch list is NOT capped — it holds every match — and
`hasEvidence` holds exactly when some uncapped match exists in any
category. -/
theorem evidence_caps (taskKey : List Char) (kws : List (List Char))
    (allCommits : List Commit) (allPRs : List PullReq)
    (allBranches : List Branch) (codePushed : List EvCode) :
    (buildEvidence taskKey kws allCommits allPRs allBranches
      codePushed).commits.length ≤ 5 ∧
    (buildEvidence taskKey kws allCommits allPRs allBranches
      codePushed).prs.length ≤ 5 ∧
    (buildEvidence taskKey kws allCommits allPRs allBranches
      codePushed).codeMatches.length ≤ 5 ∧
    (buildEvidence taskKey kws allCommits allPRs allBranches
      codePushed).branches.length =
      (allBranches.filter (fun b => branchMatches taskKey b.name)).length ∧
    (hasEvidence (buildEvidence taskKey kws allCommits allPRs allBranches
        codePushed) = true ↔
      (allCommits.filter (fun c => commitMatches taskKey kws c.message) ≠ [] ∨
       allPRs.filter (fun p => prMatches taskKey kws p.title p.body) ≠ [] ∨
       allBranches.filter (fun b => branchMatches taskKey b.name) ≠ [] ∨
       codePushed ≠ [])) := by
  refine ⟨?_, ?_, ?_, ?_, ?_⟩
  · simp only [buildEvidence, List.length_map]
    exact List.length_take_le _ _
  · simp only [buildEvidence, List.length_map]
    exact List.length_take_le _ _
  · simp only [buildEvidence]
    exact List.length_take_le _ _
  · simp only [buildEvidence, List.length_map]
  · simp only [hasEvidence, buildEvidence, Bool.or_eq_true,
      decide_eq_true_eq, List.length_pos, ne_eq, List.map_eq_nil_iff,
      take_eq_nil_iff_of_pos (by omega : (0:Nat) < 5),
      dedupByPath_eq_nil_iff]
    tauto

/-- Witness for C5's amended theorem: with one matching commit and no other
sources, the capped commit list is within the display limit and
`hasEvidence` holds. -/
theorem evidence_caps_witness :
    (buildEvidence ("ROC-5".toList) [] [⟨"abc".toList, "fix roc-5".toList,
      0, []⟩] [] [] []).commits.length ≤ 5 ∧
    hasEvidence (buildEvidence ("ROC-5".toList) []
      [⟨"abc".toList, "fix roc-5".toList, 0, []⟩] [] [] []) = true :=
  ⟨(evidence_caps ("ROC-5".toList) [] [⟨"abc".toList, "fix roc-5".toList,
      0, []⟩] [] [] []).1,
   (evidence_caps ("ROC-5".toList) [] [⟨"abc".toList, "fix roc-5".toList,
      0, []⟩] [] [] []).2.2.2.2.mpr (Or.inl (by decide))⟩

theorem analyzeAll_foldl_lengths (now : Int) (allCommits : List Commit)
    (allPRs : List PullReq) (allBranches : List Branch)
    (search : List Char → Outcome (List CodeItem)) :
    ∀ (tasks : List JiraTask) (init : List TaskResult × List TaskResult),
      (tasks.foldl
        (fun acc t =>
          let r := analyzeTask now allCommits allPRs allBranches search t
          if r.alignment == .aligned then (acc.1 ++ [r], acc.2)
          else (acc.1, acc.2 ++ [r]))
        init).1.length +
      (tasks.foldl
        (fun acc t =>
          let r := analyzeTask now allCommits allPRs allBranches search t
          if r.alignment == .aligned then (acc.1 ++ [r], acc.2)
          else (acc.1, acc.2 ++ [r]))
        init).2.length = init.1.length + init.2.length + tasks.length := by
  intro tasks
  induction tasks with
  | nil => intro init; simp
  | cons t ts ih =>
    intro init
    simp only [List.foldl_cons, List.length_cons]
    by_cases h : (analyzeTask now allCommits allPRs allBranches search
        t).alignment == .aligned
    · rw [if_pos h]
      rw [ih]
      simp
      omega
    · rw [if_neg h]
      rw [ih]
      simp
      omega

/-- The two result buckets partition the analyzed tasks. -/
theorem analyzeAll_lengths (now : Int) (allCommits : List Commit)
    (allPRs : List PullReq) (allBranches : List Branch)
    (search : List Char → Outcome (List CodeItem)) (tasks : List JiraTask) :
    (analyzeAll now allCommits allPRs allBranches search tasks).1.length +
      (analyzeAll now allCommits allPRs allBranches search tasks).2.length =
      tasks.length := by
  have := analyzeAll_foldl_lengths now allCommits allPRs allBranches search
    tasks ([], [])
  simpa [analyzeAll] using this

theorem alignmentScore_eq_round (a t : Nat) (ht : 0 < t) :
    (alignmentScore a t : ℤ) = round ((100 * (a : ℚ)) / (t : ℚ)) := by
  have ht' : (t : ℚ) ≠ 0 := by
    exact_mod_cast Nat.pos_iff_ne_zero.mp ht
  rw [alignmentScore, if_pos ht, round_eq]
  have key : (100 * (a : ℚ)) / (t : ℚ) + 1 / 2
      = ((200 * a + t : ℕ) : ℚ) / ((2 * t : ℕ) : ℚ) := by
    push_cast
    field_simp
    ring
  rw [key, Rat.floor_natCast_div_natCast]
  exact (Int.ofNat_ediv _ _).symm

theorem alignmentScore_le_100 (a t : Nat) (ha : a ≤ t) :
    alignmentScore a t ≤ 100 := by
  rw [alignmentScore]
  split
  · rename_i ht
    have h1 : 200 * a + t ≤ 201 * t := by omega
    have h2 : (200 * a + t) / (2 * t) < 101 := by
      rw [Nat.div_lt_iff_lt_mul (by omega)]
      omega
    omega
  · omega

/-- C3: for a nonempty task list, the report's score field is present and
is the integer `round(100 * |aligned| / tasksAnalyzed)` — rounding half up
over exact rationals — and hence lies in `[0, 100]`. -/
theorem report_score_round (now : Int) (repo project : List Char)
    (allCommits : List Commit) (allPRs : List PullReq)
    (allBranches : List Branch) (search : List Char → Outcome (List CodeItem))
    (suffix : List Char) (tasks : List JiraTask) (h : tasks ≠ []) :
    ∃ s : Nat,
      (mkReport now repo project allCommits allPRs allBranches search suffix
        tasks).alignmentScore = some s ∧
      (s : ℤ) = round ((100 * ((mkReport now repo project allCommits allPRs
        allBranches search suffix tasks).aligned.length : ℚ)) /
        ((mkReport now repo project allCommits allPRs allBranches search
          suffix tasks).tasksAnalyzed : ℚ)) ∧
      s ≤ 100 := by
  have hne : tasks.isEmpty = false := by
    simp [List.isEmpty_iff, h]
  have hpos : 0 < tasks.length := List.length_pos.mpr h
  have hpart := analyzeAll_lengths now allCommits allPRs allBranches search
    tasks
  refine ⟨alignmentScore
    (analyzeAll now allCommits allPRs allBranches search tasks).1.length
    tasks.length, ?_, ?_, ?_⟩
  · simp [mkReport, hne]
  · simp only [mkReport, hne, Bool.false_eq_true, if_false]
    exact alignmentScore_eq_round _ _ hpos
  · exact alignmentScore_le_100 _ _ (by omega)

/-- Witness for C3 at one concrete task: an all-aligned singleton analysis
scores 100 percent. -/
theorem report_score_round_witness :
    ∃ s : Nat,
      (mkReport 0 [] [] [] [] [] (fun _ => Outcome.ok [])
        [] [⟨"A-1".toList, [], "To Do".toList, none⟩]).alignmentScore
        = some s ∧
      (s : ℤ) = round ((100 * ((mkReport 0 [] [] [] [] []
        (fun _ => Outcome.ok []) []
        [⟨"A-1".toList, [], "To Do".toList, none⟩]).aligned.length : ℚ)) /
        ((mkReport 0 [] [] [] [] [] (fun _ => Outcome.ok []) []
          [⟨"A-1".toList, [], "To Do".toList, none⟩]).tasksAnalyzed : ℚ)) ∧
      s ≤ 100 :=
  report_score_round 0 [] [] [] [] [] (fun _ => Outcome.ok []) []
    [⟨"A-1".toList, [], "To Do".toList, none⟩] (by simp)

/-- C4 counterexample: on zero tasks the report's score field is absent,
not 0 — the early return omits the `alignmentScore` key. -/
theorem empty_report_counterexample :
    (mkReport 0 [] ("all".toList) [] [] [] (fun _ => Outcome.ok []) []
      []).alignmentScore ≠ some 0 := by
  decide

/-- C4 (amended): on zero resolved tasks the handler returns a valid report
(not an error) with `tasksAnalyzed = 0`, empty aligned and misaligned
sequences, and the "no tasks found" summary — but the score field is
omitted from this report rather than set to 0. -/
theorem empty_report (now : Int) (repo project : List Char)
    (allCommits : List Commit) (allPRs : List PullReq)
    (allBranches : List Branch) (search : List Char → Outcome (List CodeItem))
    (suffix : List Char) :
    mkReport now repo project allCommits allPRs allBranches search suffix []
      = { repository := repo
        , project := project
        , tasksAnalyzed := 0
        , alignmentScore := none
        , aligned := []
        , misalignments := []
        , summary := noTasksMsg ++ suffix } := by
  rfl

/-- A request environment in which only the Jira project-list fetch fails,
by rejection (network error), while the repository argument and all
credentials are present and every other upstream call succeeds. -/
def projectListThrownWorld : World :=
  { repoGiven := true
  , repo := "owner/repo".toList
  , jiraConfigured := true
  , githubAuthed := true
  , billingAllowed := true
  , projectHint := some ("ROC".toList)
  , statuses := []
  , maxTasks := 100
  , projectListFetch := .thrown
  , boardsOf := fun _ => .ok []
  , fallbackFetch := .ok []
  , commitsFetch := .ok []
  , prsFetch := .ok []
  , branchesFetch := .ok []
  , codeSearchOf := fun _ => .ok []
  , now := 0 }

/-- C8 counterexample: a network failure of the project-list fetch — one of
the upstream fetches the claim covers — escalates to a hard 500 failure
even though the repository and both credentials are present. -/
theorem fetch_fault_counterexample :
    handler projectListThrownWorld = .error 500 := by
  rfl

/-- C8 (amended): every GitHub-side fetch failure and every failure inside
the try-guarded board/issue/fallback stage is recovered locally, but a
rejected project-list fetch is not; whenever the guards pass and the
project-list fetch does not throw, the handler returns a structured
report. -/
theorem fetch_fault_tolerance (w : World)
    (hrepo : w.repoGiven = true) (hjira : w.jiraConfigured = true)
    (hgh : w.githubAuthed = true) (hbill : w.billingAllowed = true)
    (hproj : w.projectListFetch.isThrown = false) :
    ∃ r : Report, handler w = .ok r := by
  unfold handler
  rw [hrepo, hjira, hgh, hbill]
  simp only [Bool.not_true, Bool.false_eq_true, if_false]
  cases hpl : w.projectListFetch with
  | ok projects =>
    by_cases hp : (match w.projectHint with
        | some h => normalizeHint h
        | none => ([] : List Char)).isEmpty <;>
      simp [hp]
  | httpErr =>
    by_cases hp : (match w.projectHint with
        | some h => normalizeHint h
        | none => ([] : List Char)).isEmpty <;>
      simp [hp]
  | thrown =>
    rw [hpl] at hproj
    simp [Outcome.isThrown] at hproj

/-- Witness for C8's amended theorem: in an environment in which every
GitHub fetch and the whole board stage fail but the project-list fetch
merely returns non-2xx, the handler still returns a report. -/
theorem fetch_fault_tolerance_witness :
    ∃ r : Report, handler
      { repoGiven := true
      , repo := "owner/repo".toList
      , jiraConfigured := true
      , githubAuthed := true
      , billingAllowed := true
      , projectHint := some ("ROC".toList)
      , statuses := []
      , maxTasks := 100
      , projectListFetch := .httpErr
      , boardsOf := fun _ => .thrown
      , fallbackFetch := .thrown
      , commitsFetch := .thrown
      , prsFetch := .thrown
      , branchesFetch := .thrown
      , codeSearchOf := fun _ => .thrown
      , now := 0 } = .ok r :=
  fetch_fault_tolerance _ rfl rfl rfl rfl rfl

theorem pushIssues_length_le (statuses : List (List Char)) (maxTasks : Nat) :
    ∀ (issues acc : List JiraTask), acc.length < maxTasks →
      (pushIssues statuses maxTasks acc issues).length ≤ maxTasks := by
  intro issues
  induction issues with
  | nil =>
    intro acc h
    simpa [pushIssues] using Nat.le_of_lt h
  | cons i rest ih =>
    intro acc h
    simp only [pushIssues]
    split
    · exact ih acc h
    · split
      · rename_i h2
        simp only [List.length_append, List.length_cons, List.length_nil]
        omega
      · rename_i h2
        simp only [List.length_append, List.length_cons, List.length_nil,
          not_le] at h2
        exact ih _ (by simpa using h2)

theorem paginateFrom_stop (b : Board) (statuses : List (List Char))
    (maxTasks startAt : Nat) (acc : List JiraTask)
    (h : maxTasks ≤ acc.length) :
    paginateFrom b statuses maxTasks startAt acc = ⟨acc, 0, false⟩ := by
  rw [paginateFrom, if_pos h]

theorem paginateFrom_length_le (b : Board) (statuses : List (List Char))
    (maxTasks : Nat) : ∀ (startAt : Nat) (acc : List JiraTask),
    acc.length ≤ maxTasks →
    (paginateFrom b statuses maxTasks startAt acc).tasks.length ≤ maxTasks := by
  intro startAt acc
  induction startAt, acc using paginateFrom.induct b statuses maxTasks with
  | case1 startAt acc h =>
    intro hacc
    rw [paginateFrom_stop b statuses maxTasks startAt acc h]
    exact hacc
  | case2 startAt acc h hpage =>
    intro hacc
    rw [paginateFrom, if_neg h]
    simp only [hpage]
    exact hacc
  | case3 startAt acc h hpage =>
    intro hacc
    rw [paginateFrom, if_neg h]
    simp only [hpage]
    exact hacc
  | case4 startAt acc h val hpage issues hempty =>
    intro hacc
    unfold issues at hempty
    rw [paginateFrom, if_neg h]
    simp only [hpage]
    rw [dif_pos hempty]
    exact hacc
  | case5 startAt acc h val hpage issues hne acc2 hfull ih =>
    intro hacc
    unfold acc2 issues at hfull
    unfold issues at hne
    rw [paginateFrom, if_neg h]
    simp only [hpage]
    rw [dif_neg hne, if_pos hfull]
    have hlt : (pushIssues statuses maxTasks acc
        (List.take pageSize (List.drop startAt b.issues))).length <
        maxTasks := by
      simp only [Bool.and_eq_true, beq_iff_eq, decide_eq_true_eq] at hfull
      exact hfull.2
    exact ih (Nat.le_of_lt hlt)
  | case6 startAt acc h val hpage issues hne acc2 hfull =>
    intro hacc
    unfold acc2 issues at hfull
    unfold issues at hne
    rw [paginateFrom, if_neg h]
    simp only [hpage]
    rw [dif_neg hne, if_neg hfull]
    exact pushIssues_length_le statuses maxTasks _ acc (Nat.lt_of_not_le h)

theorem paginateFrom_calls_le (b : Board) (statuses : List (List Char))
    (maxTasks : Nat) : ∀ (startAt : Nat) (acc : List JiraTask),
    (paginateFrom b statuses maxTasks startAt acc).calls ≤
      (b.issues.length - startAt) / pageSize + 1 := by
  intro startAt acc
  induction startAt, acc using paginateFrom.induct b statuses maxTasks with
  | case1 startAt acc h =>
    rw [paginateFrom_stop b statuses maxTasks startAt acc h]
    exact Nat.zero_le _
  | case2 startAt acc h hpage =>
    rw [paginateFrom, if_neg h]
    simp only [hpage]
    exact Nat.succ_le_succ (Nat.zero_le _)
  | case3 startAt acc h hpage =>
    rw [paginateFrom, if_neg h]
    simp only [hpage]
    exact Nat.succ_le_succ (Nat.zero_le _)
  | case4 startAt acc h val hpage issues hempty =>
    unfold issues at hempty
    rw [paginateFrom, if_neg h]
    simp only [hpage]
    rw [dif_pos hempty]
    exact Nat.succ_le_succ (Nat.zero_le _)
  | case5 startAt acc h val hpage issues hne acc2 hfull ih =>
    unfold acc2 issues at hfull
    unfold issues at hne
    unfold acc2 issues at ih
    rw [paginateFrom, if_neg h]
    simp only [hpage]
    rw [dif_neg hne, if_pos hfull]
    simp only [Bool.and_eq_true, beq_iff_eq, decide_eq_true_eq] at hfull
    have hlen : (List.take pageSize (List.drop startAt b.issues)).length =
        min pageSize (b.issues.length - startAt) := by
      simp
    have h50 : pageSize ≤ b.issues.length - startAt := by
      rw [hfull.1] at hlen
      omega
    change (paginateFrom b statuses maxTasks (startAt + pageSize)
      (pushIssues statuses maxTasks acc
        (List.take pageSize (List.drop startAt b.issues)))).calls + 1 ≤
      (b.issues.length - startAt) / pageSize + 1
    simp only [pageSize] at ih h50 ⊢
    omega
  | case6 startAt acc h val hpage issues hne acc2 hfull =>
    unfold acc2 issues at hfull
    unfold issues at hne
    rw [paginateFrom, if_neg h]
    simp only [hpage]
    rw [dif_neg hne, if_neg hfull]
    exact Nat.succ_le_succ (Nat.zero_le _)

theorem boardsLoop_length_le (statuses : List (List Char)) (maxTasks : Nat) :
    ∀ (boards : List Board) (acc : List JiraTask), acc.length ≤ maxTasks →
      (boardsLoop boards statuses maxTasks acc).1.length ≤ maxTasks := by
  intro boards
  induction boards with
  | nil => intro acc h; simpa [boardsLoop] using h
  | cons b rest ih =>
    intro acc h
    simp only [boardsLoop]
    split
    · exact paginateFrom_length_le b statuses maxTasks 0 acc h
    · split
      · exact paginateFrom_length_le b statuses maxTasks 0 acc h
      · exact ih _ (paginateFrom_length_le b statuses maxTasks 0 acc h)

theorem fetchTasksAll_length_le (statuses : List (List Char))
    (maxTasks : Nat) : ∀ (projects : List Project) (acc : List JiraTask),
      acc.length ≤ maxTasks →
      (fetchTasksAll projects statuses maxTasks acc).length ≤ maxTasks := by
  intro projects
  induction projects with
  | nil => intro acc h; simpa [fetchTasksAll] using h
  | cons p rest ih =>
    intro acc h
    simp only [fetchTasksAll]
    cases hpb : p.boardsFetch with
    | ok boards =>
      simp only [hpb]
      have hacc2 := boardsLoop_length_le statuses maxTasks boards acc h
      split
      · exact hacc2
      · exact ih _ hacc2
    | httpErr =>
      simp only [hpb]
      split
      · exact h
      · exact ih _ h
    | thrown =>
      simp only [hpb]
      split
      · exact h
      · exact ih _ h

theorem fetchTasksSingle_length_le (boardsFetch : Outcome (List Board))
    (fallback : Outcome (List JiraTask)) (statuses : List (List Char))
    (maxTasks : Nat)
    (hfb : ∀ l, fallback = .ok l → l.length ≤ maxTasks) :
    (fetchTasksSingle boardsFetch fallback statuses maxTasks).length ≤
      maxTasks := by
  have hrun : (runFallback fallback).length ≤ maxTasks := by
    cases hf : fallback with
    | ok l => simpa [runFallback] using hfb l hf
    | httpErr => simp [runFallback]
    | thrown => simp [runFallback]
  cases boardsFetch with
  | thrown => simp [fetchTasksSingle]
  | httpErr => simpa [fetchTasksSingle] using hrun
  | ok boards =>
    simp only [fetchTasksSingle]
    have hbl := boardsLoop_length_le statuses maxTasks boards []
      (Nat.zero_le _)
    split
    · exact hbl
    · split
      · exact hrun
      · exact hbl

/-- C9: the Task Resolver is bounded and terminating — pagination (a total
function, hence terminating for any finite upstream board) makes at most
`boardLength / 50 + 1` page fetches, stops immediately once the running
total reaches `maxTasks`, and in both single-project mode (given the
tracker honors the fallback's `maxResults = maxTasks` cap) and all-projects
mode the resolved task list never exceeds `maxTasks`. -/
theorem resolver_bounded (b : Board) (statuses : List (List Char))
    (maxTasks startAt : Nat) (acc : List JiraTask)
    (boardsFetch : Outcome (List Board))
    (fallback : Outcome (List JiraTask)) (projects : List Project) :
    (maxTasks ≤ acc.length →
      paginateFrom b statuses maxTasks startAt acc = ⟨acc, 0, false⟩) ∧
    ((paginateFrom b statuses maxTasks startAt acc).calls ≤
      (b.issues.length - startAt) / pageSize + 1) ∧
    (acc.length ≤ maxTasks →
      (paginateFrom b statuses maxTasks startAt acc).tasks.length ≤
        maxTasks) ∧
    ((∀ l, fallback = .ok l → l.length ≤ maxTasks) →
      (fetchTasksSingle boardsFetch fallback statuses maxTasks).length ≤
        maxTasks) ∧
    ((fetchTasksAll projects statuses maxTasks []).length ≤ maxTasks) :=
  ⟨paginateFrom_stop b statuses maxTasks startAt acc,
   paginateFrom_calls_le b statuses maxTasks startAt acc,
   paginateFrom_length_le b statuses maxTasks startAt acc,
   fun hfb => fetchTasksSingle_length_le boardsFetch fallback statuses
     maxTasks hfb,
   fetchTasksAll_length_le statuses maxTasks projects [] (Nat.zero_le _)⟩

/-- Witness for C9 at a concrete world: a two-page board of 60 issues with
`maxTasks = 3` yields at most 3 tasks. -/
theorem resolver_bounded_witness :
    (fetchTasksSingle
      (.ok [⟨List.replicate 60 ⟨"A-1".toList, [], "To Do".toList, none⟩,
        fun _ => .ok ()⟩])
      (.ok []) [] 3).length ≤ 3 :=
  (resolver_bounded
    ⟨List.replicate 60 ⟨"A-1".toList, [], "To Do".toList, none⟩,
      fun _ => .ok ()⟩ [] 3 0 []
    (.ok [⟨List.replicate 60 ⟨"A-1".toList, [], "To Do".toList, none⟩,
      fun _ => .ok ()⟩])
    (.ok []) []).2.2.2.1
    (fun l hl => by cases hl; exact Nat.zero_le _)

end AlignmentEngine
